import Mathlib

/-!
Verification of the enrichment pipeline of a real-estate listing project:
address normalization, fuzzy matching with confidence tiering, a persistent
dedup cache, and the scoring/filtering engine.  The Python sources
(`matcher.py`, `hpd_cache.py`, `filters.py`, `models.py`) are shallowly
embedded below; strings are modelled as `List Char`, Python `float` prices
as `ℚ`, machine integers as `ℤ`/`ℕ`.
-/

namespace RealEstate

/-- Strings are modelled as lists of characters. -/
abbrev Str := List Char

/-- Python whitespace characters used by `str.strip` and `str.split`. -/
def isSpaceChar (c : Char) : Bool :=
  c = ' ' || c = '\t' || c = '\n' || c = '\r' || c = '\x0b' || c = '\x0c'

/-- ASCII upper-casing of one character (codes 97–122 are the lowercase
letters), as Python `str.upper` acts on ASCII. -/
def pyUpperChar (c : Char) : Char :=
  if 97 ≤ c.toNat ∧ c.toNat ≤ 122 then Char.ofNat (c.toNat - 32) else c

/-- ASCII lower-casing of one character (codes 65–90 are the uppercase
letters), as Python `str.lower` acts on ASCII. -/
def pyLowerChar (c : Char) : Char :=
  if 65 ≤ c.toNat ∧ c.toNat ≤ 90 then Char.ofNat (c.toNat + 32) else c

/-- Python `str.upper` (ASCII fragment). -/
def pyUpper (s : Str) : Str := s.map pyUpperChar

/-- Python `str.lower` (ASCII fragment). -/
def pyLower (s : Str) : Str := s.map pyLowerChar

/-- Python `str.strip()`: drop leading and trailing whitespace. -/
def pyStrip (s : Str) : Str :=
  ((s.dropWhile isSpaceChar).reverse.dropWhile isSpaceChar).reverse

/-- Whether the first string is a leading segment of the second. -/
def leadsWith : Str → Str → Bool
  | [], _ => true
  | _ :: _, [] => false
  | p :: ps, c :: cs => p = c && leadsWith ps cs

/-- Python substring test `pat in s`. -/
def pyContains : Str → Str → Bool
  | [], pat => pat.isEmpty
  | c :: cs, pat => leadsWith pat (c :: cs) || pyContains cs pat

/-- Worker for `pyReplace`: scans the string left to right; a positive `skip`
counts characters of an already-matched pattern occurrence that still have to
be consumed. -/
def pyReplaceAux (pat rep : Str) : Str → ℕ → Str
  | [], _ => []
  | _ :: rest, skip + 1 => pyReplaceAux pat rep rest skip
  | c :: rest, 0 =>
    if !pat.isEmpty && leadsWith pat (c :: rest) then
      rep ++ pyReplaceAux pat rep rest (pat.length - 1)
    else
      c :: pyReplaceAux pat rep rest 0

/-- Python `s.replace(pat, rep)`: replace every non-overlapping occurrence,
left to right. -/
def pyReplace (s pat rep : Str) : Str := pyReplaceAux pat rep s 0

/-- Worker for `pyWords`; `acc` holds the current word reversed. -/
def pyWordsAux : Str → Str → List Str
  | [], acc => if acc.isEmpty then [] else [acc.reverse]
  | c :: rest, acc =>
    if isSpaceChar c then
      if acc.isEmpty then pyWordsAux rest [] else acc.reverse :: pyWordsAux rest []
    else
      pyWordsAux rest (c :: acc)

/-- Python `str.split()` with no argument: split on whitespace runs,
discarding empty fields. -/
def pyWords (s : Str) : List Str := pyWordsAux s []

/-- Python `' '.join(ws)`. -/
def joinWords : List Str → Str
  | [] => []
  | [w] => w
  | w :: v :: ws => w ++ ' ' :: joinWords (v :: ws)

/-- Python `' '.join(s.split())`: collapse whitespace runs to single spaces
and trim the ends. -/
def collapseWs (s : Str) : Str := joinWords (pyWords s)

/-- Decimal rendering of a natural number. -/
def natToStr (n : ℕ) : Str := (toString n).toList

/-- The rational value of a natural number, written via `mkRat` so that
concrete instances evaluate by kernel reduction. -/
def natToRat (n : ℕ) : ℚ := mkRat n 1

/-- Python `x or default` on an optional string: `None` and the empty string
are falsy. -/
def pyOr (o : Option Str) (d : Str) : Str :=
  match o with
  | none => d
  | some s => if s.isEmpty then d else s

/-- Truthiness of an optional string (`None` and `""` are falsy). -/
def pyTruthy (o : Option Str) : Bool :=
  match o with
  | none => false
  | some s => !s.isEmpty

/-! ## Data model (`models.py`) -/

/-- Property address (`models.Address`).  Fields never read by the verified
core (`city`, `state` are read only for display) are kept for fidelity. -/
structure Address where
  street : Str
  city : Str := []
  state : Str := []
  zip_code : Option Str := none
  borough : Option Str := none
deriving DecidableEq, Repr

/-- Zillow listing (`models.ZillowProperty`); fields not read by the matcher,
cache or filter (zpid, square_feet, lot_size, year_built, listing_status,
listing_date, description, scraped_at) are omitted from the embedding. -/
structure ZillowProperty where
  address : Address
  price : Option ℚ := none
  bedrooms : Option ℤ := none
  bathrooms : Option ℚ := none
  property_type : Option Str := none
  days_on_market : Option ℤ := none
  url : Option Str := none
deriving DecidableEq, Repr

/-- HPD building unit (`models.HPDBUnit`). -/
structure HPDBUnit where
  unit_number : Option Str := none
  unit_type : Option Str := none
  is_b_unit : Bool := false
deriving DecidableEq, Repr

/-- HPD building record (`models.HPDBuilding`); unit counts are the
nonnegative integers produced by the scraper or the cache, registration and
landlord fields are never read by the core and are omitted. -/
structure HPDBuilding where
  building_id : Option Str := none
  bin : Option Str := none
  bbl : Option Str := none
  address : Address
  total_units : ℕ := 0
  residential_units : ℕ := 0
  b_units : List HPDBUnit := []
  has_b_units : Bool := false
  building_class : Option Str := none
deriving DecidableEq, Repr

/-- Merged record (`models.EnrichedProperty`); `processed_at` is never read
and is omitted. -/
structure EnrichedProperty where
  zillow_data : ZillowProperty
  hpd_data : Option HPDBuilding := none
  hpd_match_found : Bool := false
  has_b_units : Bool := false
  b_unit_count : ℕ := 0
  total_units : ℕ := 0
  meets_criteria : Bool := false
  match_confidence : Option Str := none
  notes : Option Str := none
deriving DecidableEq, Repr

/-! ## Address normalizations -/

/-- The replacement table of `PropertyMatcher._normalize_address`, in the
iteration order of the Python dict (insertion order). -/
def replacementTable : List (Str × Str) :=
  [ ("STREET".toList, "ST".toList)
  , ("AVENUE".toList, "AVE".toList)
  , ("ROAD".toList, "RD".toList)
  , ("BOULEVARD".toList, "BLVD".toList)
  , ("DRIVE".toList, "DR".toList)
  , ("LANE".toList, "LN".toList)
  , ("PLACE".toList, "PL".toList)
  , ("EAST".toList, "E".toList)
  , ("WEST".toList, "W".toList)
  , ("NORTH".toList, "N".toList)
  , ("SOUTH".toList, "S".toList) ]

namespace PropertyMatcher

/-- `PropertyMatcher._normalize_address`: upper-case and trim the street,
apply the replacement table sequentially, collapse whitespace. -/
def normalize_address (a : Address) : Str :=
  let street := pyStrip (pyUpper a.street)
  let street := replacementTable.foldl (fun s p => pyReplace s p.1 p.2) street
  collapseWs street

end PropertyMatcher

namespace HPDCache

/-- `HPDCache._normalize_address`: the cache key
`f"{street.upper().strip()}, {(borough or 'BROOKLYN').upper().strip()}"`. -/
def normalize_address (a : Address) : Str :=
  pyStrip (pyUpper a.street) ++ (", ".toList) ++
    pyStrip (pyUpper (pyOr a.borough ("BROOKLYN".toList)))

end HPDCache

/-- Modelled from the spec claim for comparison (claim C3): the cache key as
the claim describes it, namely the similarity-comparison normalization of the
street (with long-form token replacement and whitespace collapse) joined by
the separator with the upper-cased borough, defaulting to BROOKLYN. -/
def specCacheKey (a : Address) : Str :=
  PropertyMatcher.normalize_address a ++ (", ".toList) ++
    pyUpper (pyOr a.borough ("BROOKLYN".toList))

/-- Address used by the claim C3 counterexample. -/
def addrC3 : Address :=
  { street := "100 Gold Street".toList
  , city := "New York".toList, state := "NY".toList }

/-- Claim C3 as stated is false: for the street `100 Gold Street` the cache
key is `100 GOLD STREET, BROOKLYN` (upper-cased and trimmed only), while the
key built from the similarity normalization — as the claim describes it —
would be `100 GOLD ST, BROOKLYN`. -/
theorem c3_counterexample :
    HPDCache.normalize_address addrC3 ≠ specCacheKey addrC3 := by
  decide

/-- Claim C3 amended: the cache key is the upper-cased trimmed street —
without the long-form token replacement and whitespace collapse used for
similarity comparison — joined by `", "` with the upper-cased trimmed
borough, defaulting to BROOKLYN when the borough is absent or empty; the
cache-key normalization genuinely differs from the similarity normalization,
which identifies addresses the cache key separates. -/
theorem c3_cache_key_formula :
    (∀ a : Address, HPDCache.normalize_address a =
      pyStrip (pyUpper a.street) ++ (", ".toList) ++
        pyStrip (pyUpper (pyOr a.borough ("BROOKLYN".toList)))) ∧
    (∃ a b : Address,
      PropertyMatcher.normalize_address a = PropertyMatcher.normalize_address b ∧
      HPDCache.normalize_address a ≠ HPDCache.normalize_address b) := by
  refine ⟨fun a => rfl, ?_⟩
  refine ⟨{ street := "100 Gold Street".toList }, { street := "100 Gold St".toList }, ?_, ?_⟩
  · decide
  · decide

/-! ## The HPD cache (`hpd_cache.py`)

The in-memory cache `self.cache_data` is a Python dict keyed by the
normalized address; it is modelled as an association list to which
`save_to_cache` appends, with key uniqueness proved rather than assumed. -/

/-- First-match association-list lookup (Python dict access, given that dict
keys are unique). -/
def cacheLookup {β : Type} : List (Str × β) → Str → Option β
  | [], _ => none
  | e :: rest, key => if e.1 = key then some e.2 else cacheLookup rest key

/-- One cached row: the columns written by `HPDCache.save_to_cache` plus the
columns `get_cached_hpd_data` reads with defaults (`Building ID`, `BIN`,
`BBL`, `Total Units`, `Building Class`), absent (`none`) in rows written by
`save_to_cache` itself. -/
structure CacheRow where
  street : Str
  borough : Str
  zillowPrice : Option ℚ := none
  bedrooms : Option ℤ := none
  bathrooms : Option ℚ := none
  zillowUrl : Str := []
  bUnitCount : ℕ := 0
  hasBUnits : Str := []
  bUnitNumbers : Str := []
  matchConfidence : Str := []
  scrapedDate : Str := []
  buildingId : Option Str := none
  binCol : Option Str := none
  bblCol : Option Str := none
  totalUnitsCol : Option ℕ := none
  buildingClassCol : Option Str := none
deriving DecidableEq, Repr

/-- Python `f"B{x}"` where `x` is an optional string (`None` prints as
`"None"`). -/
def pyShowOpt (o : Option Str) : Str :=
  match o with
  | some s => s
  | none => "None".toList

namespace HPDCache

/-- The body of the cache-hit branch of `HPDCache.get_cached_hpd_data`:
reconstruct an `HPDBuilding` from the stored row, regenerating placeholder
B-unit entries `B1..Bcount` and carrying the query address itself. -/
def reconstructBuilding (address : Address) (row : CacheRow) : HPDBuilding :=
  let b_units : List HPDBUnit := (List.range row.bUnitCount).map (fun i =>
    { unit_number := some ('B' :: natToStr (i + 1))
    , unit_type := some ("Basement".toList)
    , is_b_unit := true })
  { building_id := some (row.buildingId.getD [])
  , bin := some (row.binCol.getD [])
  , bbl := some (row.bblCol.getD [])
  , address := address
  , total_units := row.totalUnitsCol.getD 0
  , residential_units := row.totalUnitsCol.getD 0
  , b_units := b_units
  , has_b_units := !b_units.isEmpty
  , building_class := row.buildingClassCol }

/-- `HPDCache.get_cached_hpd_data`: look the address key up; on a hit,
reconstruct an `HPDBuilding` from the stored row. -/
def get_cached_hpd_data (cache : List (Str × CacheRow)) (address : Address) :
    Option HPDBuilding :=
  (cacheLookup cache (normalize_address address)).map (reconstructBuilding address)

/-- The row `HPDCache.save_to_cache` builds for one newly matched property;
`now` stands for the `Scraped Date` timestamp. -/
def rowOfProperty (now : Str) (p : EnrichedProperty) (b : HPDBuilding) :
    CacheRow :=
  { street := p.zillow_data.address.street
  , borough := pyOr p.zillow_data.address.borough ("Brooklyn".toList)
  , zillowPrice := p.zillow_data.price
  , bedrooms := p.zillow_data.bedrooms
  , bathrooms := p.zillow_data.bathrooms
  , zillowUrl := pyOr p.zillow_data.url ("N/A".toList)
  , bUnitCount := b.b_units.length
  , hasBUnits := if b.has_b_units then "Yes".toList else "No".toList
  , bUnitNumbers :=
      if b.b_units.isEmpty then "N/A".toList
      else List.intercalate (", ".toList)
        (b.b_units.map (fun u => 'B' :: pyShowOpt u.unit_number))
  , matchConfidence := pyOr p.match_confidence ("N/A".toList)
  , scrapedDate := now }

/-- One iteration of the `save_to_cache` loop: records without a successful
match are skipped, keys already in the cache are skipped, otherwise a new row
is appended. -/
def saveStep (now : Str) (c : List (Str × CacheRow)) (p : EnrichedProperty) :
    List (Str × CacheRow) :=
  if !p.hpd_match_found then c
  else
    match p.hpd_data with
    | none => c
    | some b =>
      let key := normalize_address p.zillow_data.address
      if (cacheLookup c key).isSome then c
      else c ++ [(key, rowOfProperty now p b)]

/-- `HPDCache.save_to_cache`: fold the loop body over the given enriched
properties (the subsequent Excel write does not change the in-memory state
modelled here). -/
def save_to_cache (now : Str) (cache : List (Str × CacheRow))
    (props : List EnrichedProperty) : List (Str × CacheRow) :=
  props.foldl (saveStep now) cache

end HPDCache

/-- The cache key of a merged record's listing address. -/
def propKey (p : EnrichedProperty) : Str :=
  HPDCache.normalize_address p.zillow_data.address

lemma cacheLookup_append_of_isSome {β : Type} {c₁ : List (Str × β)} {k : Str}
    (c₂ : List (Str × β)) (h : (cacheLookup c₁ k).isSome) :
    cacheLookup (c₁ ++ c₂) k = cacheLookup c₁ k := by
  induction c₁ with
  | nil => simp [cacheLookup] at h
  | cons e rest ih =>
    by_cases he : e.1 = k
    · simp [cacheLookup, he]
    · simp only [cacheLookup, he, if_false, List.cons_append] at h ⊢
      exact ih h

lemma cacheLookup_append_of_none {β : Type} {c₁ : List (Str × β)} {k : Str}
    (c₂ : List (Str × β)) (h : cacheLookup c₁ k = none) :
    cacheLookup (c₁ ++ c₂) k = cacheLookup c₂ k := by
  induction c₁ with
  | nil => simp [cacheLookup]
  | cons e rest ih =>
    by_cases he : e.1 = k
    · simp [cacheLookup, he] at h
    · simp only [cacheLookup, he, if_false, List.cons_append] at h ⊢
      exact ih h

lemma cacheLookup_isSome_iff_mem {β : Type} (c : List (Str × β)) (k : Str) :
    (cacheLookup c k).isSome = true ↔ k ∈ c.map Prod.fst := by
  induction c with
  | nil => simp [cacheLookup]
  | cons e rest ih =>
    simp only [cacheLookup, List.map_cons, List.mem_cons]
    by_cases he : e.1 = k
    · rw [if_pos he]
      exact ⟨fun _ => Or.inl he.symm, fun _ => rfl⟩
    · rw [if_neg he]
      refine ⟨fun h => Or.inr (ih.mp h), ?_⟩
      rintro (h | h)
      · exact absurd h.symm he
      · exact ih.mpr h

lemma cacheLookup_append_singleton_isSome {β : Type} {c : List (Str × β)}
    {k k0 : Str} {v : β}
    (h : (cacheLookup (c ++ [(k0, v)]) k).isSome = true) :
    (cacheLookup c k).isSome = true ∨ k = k0 := by
  cases hc : cacheLookup c k with
  | some w => exact Or.inl (by simp [hc])
  | none =>
    rw [cacheLookup_append_of_none _ hc] at h
    by_cases hk : k0 = k
    · exact Or.inr hk.symm
    · simp [cacheLookup, hk] at h

lemma saveStep_cases (now : Str) (c : List (Str × CacheRow))
    (p : EnrichedProperty) :
    (HPDCache.saveStep now c p = c ∧
      (p.hpd_match_found = false ∨ p.hpd_data = none ∨
        (cacheLookup c (propKey p)).isSome = true)) ∨
    (∃ b, p.hpd_match_found = true ∧ p.hpd_data = some b ∧
      cacheLookup c (propKey p) = none ∧
      HPDCache.saveStep now c p =
        c ++ [(propKey p, HPDCache.rowOfProperty now p b)]) := by
  by_cases hm : p.hpd_match_found = true
  · cases hb : p.hpd_data with
    | none =>
      refine Or.inl ⟨?_, Or.inr (Or.inl rfl)⟩
      unfold HPDCache.saveStep
      simp [hm, hb]
    | some b =>
      by_cases hl : (cacheLookup c (propKey p)).isSome = true
      · refine Or.inl ⟨?_, Or.inr (Or.inr hl)⟩
        unfold HPDCache.saveStep
        simp only [propKey] at hl
        simp [hm, hb, hl]
      · have hnone : cacheLookup c (propKey p) = none :=
          Option.not_isSome_iff_eq_none.mp (by simpa using hl)
        refine Or.inr ⟨b, hm, rfl, hnone, ?_⟩
        unfold HPDCache.saveStep
        simp only [propKey] at hnone
        simp [hm, hb, hnone, propKey]
  · have hm2 : p.hpd_match_found = false := by
      cases h : p.hpd_match_found
      · rfl
      · exact absurd h hm
    refine Or.inl ⟨?_, Or.inl hm2⟩
    unfold HPDCache.saveStep
    simp [hm2]

lemma save_to_cache_suffix (now : Str) (ps : List EnrichedProperty) :
    ∀ c, ∃ t, HPDCache.save_to_cache now c ps = c ++ t := by
  induction ps with
  | nil => exact fun c => ⟨[], by simp [HPDCache.save_to_cache]⟩
  | cons p ps ih =>
    intro c
    have hstep := saveStep_cases now c p
    obtain ⟨t, ht⟩ := ih (HPDCache.saveStep now c p)
    have hfold : HPDCache.save_to_cache now c (p :: ps) =
        HPDCache.save_to_cache now (HPDCache.saveStep now c p) ps := rfl
    rcases hstep with ⟨he, _⟩ | ⟨b, _, _, _, he⟩
    · refine ⟨t, ?_⟩
      rw [hfold, he]
      rw [he] at ht
      exact ht
    · refine ⟨[(propKey p, HPDCache.rowOfProperty now p b)] ++ t, ?_⟩
      rw [hfold, he, ← List.append_assoc]
      rw [he] at ht
      exact ht

lemma cacheLookup_save_of_isSome {now : Str} {c : List (Str × CacheRow)}
    {ps : List EnrichedProperty} {k : Str}
    (h : (cacheLookup c k).isSome) :
    cacheLookup (HPDCache.save_to_cache now c ps) k = cacheLookup c k := by
  obtain ⟨t, ht⟩ := save_to_cache_suffix now ps c
  rw [ht, cacheLookup_append_of_isSome _ h]

lemma mem_keys_save_of_matched {now : Str} {ps : List EnrichedProperty}
    {p : EnrichedProperty} (hp : p ∈ ps) (hm : p.hpd_match_found = true)
    (hb : p.hpd_data.isSome) :
    ∀ c, (cacheLookup (HPDCache.save_to_cache now c ps) (propKey p)).isSome = true := by
  induction ps with
  | nil => cases hp
  | cons q qs ih =>
    intro c
    have hfold : HPDCache.save_to_cache now c (q :: qs) =
        HPDCache.save_to_cache now (HPDCache.saveStep now c q) qs := rfl
    rcases List.mem_cons.mp hp with rfl | hp2
    · -- after the step for `p` itself its key is present, and stays present
      have hkey : (cacheLookup (HPDCache.saveStep now c p) (propKey p)).isSome = true := by
        rcases saveStep_cases now c p with ⟨he, hc | hc | hc⟩ | ⟨b, _, _, hnone, he⟩
        · rw [hm] at hc; cases hc
        · rw [hc] at hb; cases hb
        · rw [he]; exact hc
        · rw [he, cacheLookup_append_of_none _ hnone]
          simp [cacheLookup]
      rw [hfold]
      rw [cacheLookup_save_of_isSome hkey]
      exact hkey
    · rw [hfold]; exact ih hp2 _

lemma save_keys_from {now : Str} {ps : List EnrichedProperty} {k : Str} :
    ∀ c, (cacheLookup (HPDCache.save_to_cache now c ps) k).isSome = true →
      (cacheLookup c k).isSome = true ∨
        ∃ p, p ∈ ps ∧ p.hpd_match_found = true ∧ p.hpd_data.isSome = true ∧
          k = propKey p := by
  induction ps with
  | nil => exact fun c h => Or.inl h
  | cons q qs ih =>
    intro c h
    have hfold : HPDCache.save_to_cache now c (q :: qs) =
        HPDCache.save_to_cache now (HPDCache.saveStep now c q) qs := rfl
    rw [hfold] at h
    rcases ih _ h with hstep | ⟨p, hp, h1, h2, h3⟩
    · rcases saveStep_cases now c q with ⟨he, _⟩ | ⟨b, hm, hb, _, he⟩
      · rw [he] at hstep; exact Or.inl hstep
      · rw [he] at hstep
        rcases cacheLookup_append_singleton_isSome hstep with hc | hk
        · exact Or.inl hc
        · exact Or.inr ⟨q, List.mem_cons_self q qs, hm, by simp [hb], hk⟩
    · exact Or.inr ⟨p, List.mem_cons_of_mem q hp, h1, h2, h3⟩

lemma save_nodup {now : Str} {ps : List EnrichedProperty} :
    ∀ c : List (Str × CacheRow), (c.map Prod.fst).Nodup →
      ((HPDCache.save_to_cache now c ps).map Prod.fst).Nodup := by
  induction ps with
  | nil => exact fun c h => h
  | cons q qs ih =>
    intro c hc
    have hfold : HPDCache.save_to_cache now c (q :: qs) =
        HPDCache.save_to_cache now (HPDCache.saveStep now c q) qs := rfl
    rw [hfold]
    refine ih _ ?_
    rcases saveStep_cases now c q with ⟨he, _⟩ | ⟨b, _, _, hnone, he⟩
    · rw [he]; exact hc
    · rw [he, List.map_append]
      refine List.Nodup.append hc (List.nodup_singleton _) ?_
      intro x hx hx2
      simp only [List.map_cons, List.map_nil, List.mem_singleton] at hx2
      subst hx2
      have := (cacheLookup_isSome_iff_mem c (propKey q)).mpr hx
      rw [hnone] at this
      cases this

lemma countP_eq_one_of_nodup_mem {α : Type} [DecidableEq α] {l : List α}
    {a : α} (hnd : l.Nodup) (hmem : a ∈ l) :
    l.countP (fun x => decide (x = a)) = 1 := by
  induction l with
  | nil => cases hmem
  | cons b l ih =>
    rcases List.mem_cons.mp hmem with rfl | hmem2
    · rw [List.countP_cons_of_pos _ _ (by simp)]
      have hzero : l.countP (fun x => decide (x = a)) = 0 :=
        List.countP_eq_zero.mpr (fun x hx => by
          simp only [decide_eq_true_eq]
          rintro rfl
          exact (List.nodup_cons.mp hnd).1 hx)
      omega
    · have hne : b ≠ a := by
        rintro rfl
        exact (List.nodup_cons.mp hnd).1 hmem2
      rw [List.countP_cons_of_neg _ _ (by simpa using hne)]
      exact ih (List.nodup_cons.mp hnd).2 hmem2

lemma save_eq_of_all_present {now : Str} {ps : List EnrichedProperty} :
    ∀ c, (∀ p, p ∈ ps → p.hpd_match_found = true → p.hpd_data.isSome = true →
        (cacheLookup c (propKey p)).isSome = true) →
      HPDCache.save_to_cache now c ps = c := by
  induction ps with
  | nil => exact fun c _ => rfl
  | cons q qs ih =>
    intro c hpres
    have hfold : HPDCache.save_to_cache now c (q :: qs) =
        HPDCache.save_to_cache now (HPDCache.saveStep now c q) qs := rfl
    have hstep : HPDCache.saveStep now c q = c := by
      rcases saveStep_cases now c q with ⟨he, _⟩ | ⟨b, hm, hb, hnone, _⟩
      · exact he
      · have := hpres q (List.mem_cons_self q qs) hm (by simp [hb])
        rw [hnone] at this; cases this
    rw [hfold, hstep]
    exact ih c (fun p hp => hpres p (List.mem_cons_of_mem q hp))

/-- Claim C2: writes into the cache never touch a present key
(first-write-wins), only merged records with match-found true and a building
record present are ever inserted, key uniqueness is preserved (at most one
cache entry per normalized key), re-running `save_to_cache` on the same
records adds nothing, and every newly-resolved matched record ends up with
exactly one cache entry. -/
theorem c2_cache_insert_invariants (now now2 : Str)
    (cache : List (Str × CacheRow)) (props : List EnrichedProperty)
    (hnd : (cache.map Prod.fst).Nodup) :
    (∀ k, (cacheLookup cache k).isSome = true →
      cacheLookup (HPDCache.save_to_cache now cache props) k = cacheLookup cache k) ∧
    (∀ k, (cacheLookup (HPDCache.save_to_cache now cache props) k).isSome = true →
      (cacheLookup cache k).isSome = true ∨
        ∃ p, p ∈ props ∧ p.hpd_match_found = true ∧ p.hpd_data.isSome = true ∧
          k = propKey p) ∧
    ((HPDCache.save_to_cache now cache props).map Prod.fst).Nodup ∧
    HPDCache.save_to_cache now2 (HPDCache.save_to_cache now cache props) props =
      HPDCache.save_to_cache now cache props ∧
    (∀ p, p ∈ props → p.hpd_match_found = true → p.hpd_data.isSome = true →
      ((HPDCache.save_to_cache now cache props).map Prod.fst).countP
        (fun k => decide (k = propKey p)) = 1) := by
  refine ⟨fun k => cacheLookup_save_of_isSome, fun k => save_keys_from cache, ?_, ?_, ?_⟩
  · exact save_nodup cache hnd
  · exact save_eq_of_all_present _
      (fun p hp hm hb => mem_keys_save_of_matched hp hm (by simp_all) cache)
  · intro p hp hm hb
    have hmem : propKey p ∈ (HPDCache.save_to_cache now cache props).map Prod.fst :=
      (cacheLookup_isSome_iff_mem _ _).mp
        (mem_keys_save_of_matched hp hm (by simp_all) cache)
    exact countP_eq_one_of_nodup_mem (save_nodup cache hnd) hmem

/-! ## The matcher (`matcher.py`)

`fuzz.ratio` comes from the external fuzzywuzzy library, which is not part
of this repository; the spec specifies it only at its interface.  The
development is therefore parameterized over an arbitrary ratio function,
constrained where needed by `RatioSpec`. -/

/-- Modelled from the spec: the interface contract of the external
`fuzz.ratio` collaborator — "a normalized-string similarity ratio
(edit-distance-based, symmetric, 100 for identical normalized strings)"
with scores in [0,100]. -/
def RatioSpec (ratioFn : Str → Str → ℕ) : Prop :=
  (∀ s, ratioFn s s = 100) ∧ (∀ a b, ratioFn a b ≤ 100) ∧
    (∀ a b, ratioFn a b = ratioFn b a)

namespace PropertyMatcher

/-- The fuzzy matching threshold set in `PropertyMatcher.__init__`. -/
def match_threshold : ℕ := 80

/-- `PropertyMatcher._calculate_address_similarity`: ratio of the normalized
streets, then a +10 boost (capped at 100) when both boroughs are present and
equal case-insensitively, and another when both zip codes are present and
equal. -/
def calculate_address_similarity (ratioFn : Str → Str → ℕ)
    (addr1 addr2 : Address) : ℕ :=
  let norm1 := normalize_address addr1
  let norm2 := normalize_address addr2
  let similarity := ratioFn norm1 norm2
  let similarity :=
    if pyTruthy addr1.borough && pyTruthy addr2.borough then
      if pyUpper (addr1.borough.getD []) = pyUpper (addr2.borough.getD []) then
        min 100 (similarity + 10)
      else similarity
    else similarity
  let similarity :=
    if pyTruthy addr1.zip_code && pyTruthy addr2.zip_code then
      if addr1.zip_code.getD [] = addr2.zip_code.getD [] then
        min 100 (similarity + 10)
      else similarity
    else similarity
  similarity

end PropertyMatcher

/-- Result of matching one listing: the enriched property together with how
often the external scraper collaborator was invoked and the entries added to
`self.new_hpd_data`. -/
structure MatchResult where
  enriched : EnrichedProperty
  scraperCalls : ℕ
  newData : List (Str × HPDBuilding)
deriving DecidableEq, Repr

namespace PropertyMatcher

/-- The key used for `self.new_hpd_data`:
`f"{street}, {borough or 'Brooklyn'}, NY"`. -/
def address_str (zp : ZillowProperty) : Str :=
  zp.address.street ++ (", ".toList) ++
    pyOr zp.address.borough ("Brooklyn".toList) ++ (", NY".toList)

/-- The tail of `PropertyMatcher.match_property` from `if hpd_building:` on:
similarity gate against the threshold, attachment of the building record and
confidence tiering. -/
def matchFinish (ratioFn : Str → Str → ℕ) (zp : ZillowProperty)
    (hpd_building : HPDBuilding) (calls : ℕ)
    (nd : List (Str × HPDBuilding)) : MatchResult :=
  if match_threshold ≤ calculate_address_similarity ratioFn zp.address hpd_building.address then
    { enriched :=
        { zillow_data := zp
        , hpd_data := some hpd_building
        , hpd_match_found := true
        , has_b_units := hpd_building.has_b_units
        , b_unit_count := hpd_building.b_units.length
        , total_units := hpd_building.total_units
        , match_confidence := some
            (if 95 ≤ calculate_address_similarity ratioFn zp.address hpd_building.address
             then "High".toList
             else if 85 ≤ calculate_address_similarity ratioFn zp.address hpd_building.address
             then "Medium".toList
             else "Low".toList) }
    , scraperCalls := calls
    , newData := nd }
  else
    { enriched := { zillow_data := zp, hpd_match_found := false }
    , scraperCalls := calls
    , newData := nd }

/-- `PropertyMatcher.match_property`: consult the cache first; on a miss
invoke the external scraper collaborator (`scraper`, returning
`Except.error` when it raises), recording newly scraped data for later
caching; then gate by similarity.  Any scraper exception is caught and
leaves the default unmatched record. -/
def match_property (ratioFn : Str → Str → ℕ) (cache : List (Str × CacheRow))
    (scraper : Address → Except Unit (Option HPDBuilding))
    (zp : ZillowProperty) : MatchResult :=
  match HPDCache.get_cached_hpd_data cache zp.address with
  | some hpd_building => matchFinish ratioFn zp hpd_building 0 []
  | none =>
    match scraper zp.address with
    | Except.error _ =>
      { enriched := { zillow_data := zp, hpd_match_found := false }
      , scraperCalls := 1, newData := [] }
    | Except.ok none =>
      { enriched := { zillow_data := zp, hpd_match_found := false }
      , scraperCalls := 1, newData := [] }
    | Except.ok (some hpd_building) =>
      matchFinish ratioFn zp hpd_building 1 [(address_str zp, hpd_building)]

/-- `PropertyMatcher.match_properties_batch`, restricted to its per-listing
results: batching only paces the scraper (fixed-size `asyncio.gather` groups
with a sleep between them) and the output preserves input order, so the
result sequence is the order-preserving map of `match_property`. -/
def match_properties_batch (ratioFn : Str → Str → ℕ)
    (cache : List (Str × CacheRow))
    (scraper : Address → Except Unit (Option HPDBuilding))
    (listings : List ZillowProperty) : List EnrichedProperty :=
  listings.map (fun zp => (match_property ratioFn cache scraper zp).enriched)

end PropertyMatcher

lemma get_cached_address {cache : List (Str × CacheRow)} {a : Address}
    {b : HPDBuilding} (h : HPDCache.get_cached_hpd_data cache a = some b) :
    b.address = a := by
  unfold HPDCache.get_cached_hpd_data at h
  rcases Option.map_eq_some'.mp h with ⟨row, _, hb⟩
  subst hb
  rfl

lemma calculate_address_similarity_self {ratioFn : Str → Str → ℕ}
    (hr : RatioSpec ratioFn) (a : Address) :
    PropertyMatcher.calculate_address_similarity ratioFn a a = 100 := by
  unfold PropertyMatcher.calculate_address_similarity
  simp only [hr.1]
  split_ifs <;> omega

lemma match_property_of_hit {ratioFn : Str → Str → ℕ}
    {cache : List (Str × CacheRow)}
    {scraper : Address → Except Unit (Option HPDBuilding)}
    {zp : ZillowProperty} {b : HPDBuilding}
    (hhit : HPDCache.get_cached_hpd_data cache zp.address = some b) :
    PropertyMatcher.match_property ratioFn cache scraper zp =
      PropertyMatcher.matchFinish ratioFn zp b 0 [] := by
  unfold PropertyMatcher.match_property
  rw [hhit]

lemma match_property_of_scraped {ratioFn : Str → Str → ℕ}
    {cache : List (Str × CacheRow)}
    {scraper : Address → Except Unit (Option HPDBuilding)}
    {zp : ZillowProperty} {b : HPDBuilding}
    (hmiss : HPDCache.get_cached_hpd_data cache zp.address = none)
    (hscr : scraper zp.address = Except.ok (some b)) :
    PropertyMatcher.match_property ratioFn cache scraper zp =
      PropertyMatcher.matchFinish ratioFn zp b 1
        [(PropertyMatcher.address_str zp, b)] := by
  unfold PropertyMatcher.match_property
  rw [hmiss, hscr]

lemma match_property_of_error {ratioFn : Str → Str → ℕ}
    {cache : List (Str × CacheRow)}
    {scraper : Address → Except Unit (Option HPDBuilding)}
    {zp : ZillowProperty} {e : Unit}
    (hmiss : HPDCache.get_cached_hpd_data cache zp.address = none)
    (herr : scraper zp.address = Except.error e) :
    PropertyMatcher.match_property ratioFn cache scraper zp =
      { enriched := { zillow_data := zp, hpd_match_found := false }
      , scraperCalls := 1, newData := [] } := by
  unfold PropertyMatcher.match_property
  rw [hmiss, herr]

/-- Claim C1: on a cache hit the external lookup collaborator is never
invoked, the cached building record is attached, and match-found is set to
true — the recomputed similarity is 100, so a cache hit is never rejected by
the similarity gate. -/
theorem c1_cache_hit_trusted (ratioFn : Str → Str → ℕ)
    (cache : List (Str × CacheRow))
    (scraper : Address → Except Unit (Option HPDBuilding))
    (zp : ZillowProperty) (b : HPDBuilding)
    (hr : RatioSpec ratioFn)
    (hhit : HPDCache.get_cached_hpd_data cache zp.address = some b) :
    (PropertyMatcher.match_property ratioFn cache scraper zp).scraperCalls = 0 ∧
    (PropertyMatcher.match_property ratioFn cache scraper zp).enriched.hpd_data = some b ∧
    (PropertyMatcher.match_property ratioFn cache scraper zp).enriched.hpd_match_found = true := by
  have haddr : b.address = zp.address := get_cached_address hhit
  have hsim : PropertyMatcher.calculate_address_similarity ratioFn zp.address b.address = 100 := by
    rw [haddr]
    exact calculate_address_similarity_self hr zp.address
  rw [match_property_of_hit hhit]
  unfold PropertyMatcher.matchFinish
  rw [hsim, if_pos (by norm_num [PropertyMatcher.match_threshold])]
  exact ⟨rfl, rfl, rfl⟩

/-- Claim C10: a listing resolved from a cache hit always gets confidence
tier High, whatever confidence label the cache row stores: the reconstructed
building carries the query address itself, so the recomputed similarity is
exactly 100. -/
theorem c10_cache_hit_high_confidence (ratioFn : Str → Str → ℕ)
    (cache : List (Str × CacheRow))
    (scraper : Address → Except Unit (Option HPDBuilding))
    (zp : ZillowProperty) (b : HPDBuilding)
    (hr : RatioSpec ratioFn)
    (hhit : HPDCache.get_cached_hpd_data cache zp.address = some b) :
    PropertyMatcher.calculate_address_similarity ratioFn zp.address b.address = 100 ∧
    (PropertyMatcher.match_property ratioFn cache scraper zp).enriched.match_confidence =
      some ("High".toList) := by
  have haddr : b.address = zp.address := get_cached_address hhit
  have hsim : PropertyMatcher.calculate_address_similarity ratioFn zp.address b.address = 100 := by
    rw [haddr]
    exact calculate_address_similarity_self hr zp.address
  refine ⟨hsim, ?_⟩
  rw [match_property_of_hit hhit]
  unfold PropertyMatcher.matchFinish
  rw [hsim, if_pos (by norm_num [PropertyMatcher.match_threshold])]
  norm_num

/-- Claim C4: for a listing resolved by the external lookup, a similarity
below the threshold 80 leaves the listing unmatched (no record, no tier),
and a similarity of at least 80 sets match-found with tier High when the
score is at least 95, Medium when at least 85, and Low otherwise. -/
theorem c4_scrape_threshold_and_tiers (ratioFn : Str → Str → ℕ)
    (cache : List (Str × CacheRow))
    (scraper : Address → Except Unit (Option HPDBuilding))
    (zp : ZillowProperty) (b : HPDBuilding)
    (hmiss : HPDCache.get_cached_hpd_data cache zp.address = none)
    (hscr : scraper zp.address = Except.ok (some b)) :
    (PropertyMatcher.calculate_address_similarity ratioFn zp.address b.address < 80 →
      (PropertyMatcher.match_property ratioFn cache scraper zp).enriched.hpd_match_found = false ∧
      (PropertyMatcher.match_property ratioFn cache scraper zp).enriched.hpd_data = none ∧
      (PropertyMatcher.match_property ratioFn cache scraper zp).enriched.match_confidence = none) ∧
    (80 ≤ PropertyMatcher.calculate_address_similarity ratioFn zp.address b.address →
      (PropertyMatcher.match_property ratioFn cache scraper zp).enriched.hpd_match_found = true ∧
      (PropertyMatcher.match_property ratioFn cache scraper zp).enriched.hpd_data = some b ∧
      (PropertyMatcher.match_property ratioFn cache scraper zp).enriched.match_confidence =
        some
          (if 95 ≤ PropertyMatcher.calculate_address_similarity ratioFn zp.address b.address
           then "High".toList
           else if 85 ≤ PropertyMatcher.calculate_address_similarity ratioFn zp.address b.address
           then "Medium".toList
           else "Low".toList)) := by
  rw [match_property_of_scraped hmiss hscr]
  unfold PropertyMatcher.matchFinish
  constructor
  · intro hlt
    rw [if_neg (by simpa [PropertyMatcher.match_threshold] using Nat.not_le.mpr hlt)]
    exact ⟨rfl, rfl, rfl⟩
  · intro hge
    rw [if_pos (by simpa [PropertyMatcher.match_threshold] using hge)]
    exact ⟨rfl, rfl, rfl⟩

/-- Claim C9: an exception raised by the external lookup collaborator for a
single listing is caught: that listing's merged record comes back with
match-found false and nothing attached, nothing is queued for caching, and
the batch operation still returns one merged record per input listing. -/
theorem c9_scraper_error_contained (ratioFn : Str → Str → ℕ)
    (cache : List (Str × CacheRow))
    (scraper : Address → Except Unit (Option HPDBuilding))
    (zp : ZillowProperty) (e : Unit)
    (hmiss : HPDCache.get_cached_hpd_data cache zp.address = none)
    (herr : scraper zp.address = Except.error e) :
    ((PropertyMatcher.match_property ratioFn cache scraper zp).enriched.hpd_match_found = false ∧
     (PropertyMatcher.match_property ratioFn cache scraper zp).enriched.hpd_data = none ∧
     (PropertyMatcher.match_property ratioFn cache scraper zp).enriched.match_confidence = none ∧
     (PropertyMatcher.match_property ratioFn cache scraper zp).newData = []) ∧
    (∀ listings : List ZillowProperty,
      (PropertyMatcher.match_properties_batch ratioFn cache scraper listings).length =
        listings.length) := by
  constructor
  · rw [match_property_of_error hmiss herr]
    exact ⟨rfl, rfl, rfl, rfl⟩
  · intro listings
    unfold PropertyMatcher.match_properties_batch
    exact List.length_map _ _

/-! ## The investment filter (`filters.py`, criteria from `config.py`) -/

/-- Investment criteria (`config.FilterCriteria`); defaults as in the
pydantic model. -/
structure FilterCriteria where
  min_price : ℚ := 0
  max_price : ℚ := 2500000
  min_bedrooms : ℤ := 5
  min_bathrooms : ℚ := 4
  min_units : ℕ := 2
  require_b_units : Bool := true
  boroughs : Option (List Str) := some
    ["Manhattan".toList, "Brooklyn".toList, "Bronx".toList, "Queens".toList]
  property_types : Option (List Str) := some
    ["Multi Family".toList, "Multifamily".toList, "Duplex".toList]
deriving DecidableEq, Repr

namespace PropertyFilter

/-- `PropertyFilter.meets_price_criteria`. -/
def meets_price_criteria (crit : FilterCriteria) (p : EnrichedProperty) : Bool :=
  match p.zillow_data.price with
  | none => false
  | some price => decide (crit.min_price ≤ price ∧ price ≤ crit.max_price)

/-- `PropertyFilter.meets_bedroom_criteria`. -/
def meets_bedroom_criteria (crit : FilterCriteria) (p : EnrichedProperty) : Bool :=
  match p.zillow_data.bedrooms with
  | none => false
  | some bd => decide (crit.min_bedrooms ≤ bd)

/-- `PropertyFilter.meets_bathroom_criteria`. -/
def meets_bathroom_criteria (crit : FilterCriteria) (p : EnrichedProperty) : Bool :=
  match p.zillow_data.bathrooms with
  | none => false
  | some ba => decide (crit.min_bathrooms ≤ ba)

/-- `PropertyFilter.meets_unit_criteria`: without HPD data the unit count is
unverifiable and the record fails. -/
def meets_unit_criteria (crit : FilterCriteria) (p : EnrichedProperty) : Bool :=
  if !p.hpd_match_found then false
  else decide (crit.min_units ≤ p.total_units)

/-- `PropertyFilter.has_required_b_units`. -/
def has_required_b_units (crit : FilterCriteria) (p : EnrichedProperty) : Bool :=
  if !crit.require_b_units then true
  else p.has_b_units

/-- `PropertyFilter.meets_borough_criteria`: a `None` or empty allow-list
passes everything; otherwise the borough must be present and a case-sensitive
member. -/
def meets_borough_criteria (crit : FilterCriteria) (p : EnrichedProperty) : Bool :=
  match crit.boroughs with
  | none => true
  | some bs =>
    if bs.isEmpty then true
    else if !pyTruthy p.zillow_data.address.borough then false
    else decide (p.zillow_data.address.borough.getD [] ∈ bs)

/-- `PropertyFilter.meets_property_type_criteria`: a `None` or empty
allow-list passes everything; otherwise the property type must be present
and case-insensitively contain one of the allowed substrings. -/
def meets_property_type_criteria (crit : FilterCriteria) (p : EnrichedProperty) : Bool :=
  match crit.property_types with
  | none => true
  | some ts =>
    if ts.isEmpty then true
    else if !pyTruthy p.zillow_data.property_type then false
    else ts.any (fun pt =>
      pyContains (pyLower (p.zillow_data.property_type.getD [])) (pyLower pt))

/-- The conjunction `passes_all` checked by `PropertyFilter.filter_properties`. -/
def meets_all_criteria (crit : FilterCriteria) (p : EnrichedProperty) : Bool :=
  meets_price_criteria crit p &&
  meets_bedroom_criteria crit p &&
  meets_bathroom_criteria crit p &&
  meets_unit_criteria crit p &&
  has_required_b_units crit p &&
  meets_borough_criteria crit p &&
  meets_property_type_criteria crit p

/-- `PropertyFilter.calculate_investment_score`, translated step by step from
the sequential `score += ...` accumulation; the Python float score only ever
holds nonnegative integer values, so it is a `ℕ` here. -/
def calculate_investment_score (p : EnrichedProperty) : ℕ :=
  let score : ℕ := 0
  let score := if p.has_b_units then score + 30 else score
  let score := score + min (p.b_unit_count * 10) 30
  let score := if 0 < p.total_units then score + min (p.total_units * 5) 25 else score
  let score :=
    match p.zillow_data.price with
    | some price =>
      if price ≠ 0 ∧ 0 < p.total_units then
        if price / natToRat p.total_units ≤ 100000 then score + 15
        else if price / natToRat p.total_units ≤ 150000 then score + 10
        else if price / natToRat p.total_units ≤ 200000 then score + 5
        else score
      else score
    | none => score
  let score :=
    match p.zillow_data.days_on_market with
    | some d =>
      if d ≤ 7 then score + 10
      else if d ≤ 14 then score + 7
      else if d ≤ 30 then score + 5
      else score
    | none => score
  min score 100

end PropertyFilter

/-- Modelled from the claim's words (C5) for comparison: the investment score
as the claim states it, a sum of independently capped terms where the
price-per-unit tier applies "only when price and totalUnitCount are
positive". -/
def claimedInvestmentScore (p : EnrichedProperty) : ℕ :=
  min
    ((if p.has_b_units then 30 else 0)
      + min (p.b_unit_count * 10) 30
      + (if 0 < p.total_units then min (p.total_units * 5) 25 else 0)
      + (match p.zillow_data.price with
         | some price =>
           if 0 < price ∧ 0 < p.total_units then
             if price / natToRat p.total_units ≤ 100000 then 15
             else if price / natToRat p.total_units ≤ 150000 then 10
             else if price / natToRat p.total_units ≤ 200000 then 5
             else 0
           else 0
         | none => 0)
      + (match p.zillow_data.days_on_market with
         | some d =>
           if d ≤ 7 then 10
           else if d ≤ 14 then 7
           else if d ≤ 30 then 5
           else 0
         | none => 0))
    100

/-- The investment score as a sum of independent terms, with the
price-per-unit tier guarded by the code's actual condition: price present
and nonzero (Python truthiness), unit count positive. -/
def scoreByTerms (p : EnrichedProperty) : ℕ :=
  min
    ((if p.has_b_units then 30 else 0)
      + min (p.b_unit_count * 10) 30
      + (if 0 < p.total_units then min (p.total_units * 5) 25 else 0)
      + (match p.zillow_data.price with
         | some price =>
           if price ≠ 0 ∧ 0 < p.total_units then
             if price / natToRat p.total_units ≤ 100000 then 15
             else if price / natToRat p.total_units ≤ 150000 then 10
             else if price / natToRat p.total_units ≤ 200000 then 5
             else 0
           else 0
         | none => 0)
      + (match p.zillow_data.days_on_market with
         | some d =>
           if d ≤ 7 then 10
           else if d ≤ 14 then 7
           else if d ≤ 30 then 5
           else 0
         | none => 0))
    100

/-- Address used by the claim C5 counterexample. -/
def addrC5 : Address :=
  { street := "1 Test Ave".toList, city := "New York".toList, state := "NY".toList }

/-- Criteria with a negative lower price bound (the criteria bounds are not
validated anywhere; `MIN_PRICE` comes straight from the environment). -/
def critC5 : FilterCriteria :=
  { min_price := -2000000, max_price := 2500000, min_bedrooms := 0
  , min_bathrooms := 0, min_units := 1, require_b_units := false
  , boroughs := none, property_types := none }

/-- A passing record with a negative price: the code still grants the
price-per-unit tier (+15) because `-1000000` is truthy, while the claim's
formula does not, since the price is not positive. -/
def recC5 : EnrichedProperty :=
  { zillow_data :=
      { address := addrC5, price := some (-1000000)
      , bedrooms := some 0, bathrooms := some 0 }
  , hpd_data := some { address := addrC5, total_units := 2 }
  , hpd_match_found := true
  , has_b_units := false
  , b_unit_count := 0
  , total_units := 2 }

/-- Claim C5 as stated is false: `recC5` passes the gate under `critC5`, the
code computes score 25 (the +15 price tier applies to a nonzero negative
price), but the claim's sum — whose price tier requires a positive price —
gives 10. -/
theorem c5_counterexample :
    PropertyFilter.meets_all_criteria critC5 recC5 = true ∧
    PropertyFilter.calculate_investment_score recC5 = 25 ∧
    claimedInvestmentScore recC5 = 10 := by
  refine ⟨by decide, ?_, by decide⟩
  norm_num [PropertyFilter.calculate_investment_score, recC5, addrC5, natToRat]

set_option maxHeartbeats 2000000 in
/-- Claim C5 amended: for every record the investment score equals the sum
of the five terms where the price-per-unit tier applies when the price is
present and nonzero (not necessarily positive) and the unit count is
positive, capped at 100; the score always lies in [0, 100]. -/
theorem c5_score_terms_and_bounds (p : EnrichedProperty) :
    PropertyFilter.calculate_investment_score p = scoreByTerms p ∧
    PropertyFilter.calculate_investment_score p ≤ 100 := by
  have heq : PropertyFilter.calculate_investment_score p = scoreByTerms p := by
    obtain ⟨⟨addr, price, bd, ba, pt, dom, url⟩, hd, hm, hbu, bcnt, tu, mc, conf, nts⟩ := p
    unfold PropertyFilter.calculate_investment_score scoreByTerms
    cases price <;> cases dom <;> (dsimp only; split_ifs <;> omega)
  refine ⟨heq, ?_⟩
  rw [heq]
  unfold scoreByTerms
  exact Nat.min_le_right _ _

/-! ## Scoring notes, the re-parsed sort key, and `filter_properties` -/

/-- Worker for `pySplit`, scanning left to right with the same skip-counter
device as `pyReplaceAux`; `acc` holds the current field reversed. -/
def pySplitAux (sep : Str) : Str → Str → ℕ → List Str
  | [], acc, _ => [acc.reverse]
  | _ :: rest, acc, skip + 1 => pySplitAux sep rest acc skip
  | c :: rest, acc, 0 =>
    if !sep.isEmpty && leadsWith sep (c :: rest) then
      acc.reverse :: pySplitAux sep rest [] (sep.length - 1)
    else
      pySplitAux sep rest (c :: acc) 0

/-- Python `s.split(sep)` for a nonempty separator. -/
def pySplit (s sep : Str) : List Str := pySplitAux sep s [] 0

/-- Value of a digit string. -/
def digitsToNat (s : Str) : ℕ := s.foldl (fun n c => n * 10 + (c.toNat - 48)) 0

/-- Python `float` on the decimal strings produced by the score formatting
(digits, optionally a dot and digits). -/
def parseFloatStr (s : Str) : ℚ :=
  match pySplit s ['.'] with
  | [a] => mkRat (digitsToNat a) 1
  | [a, b] => mkRat (digitsToNat a * 10 ^ b.length + digitsToNat b) (10 ^ b.length)
  | _ => 0

namespace PropertyFilter

/-- The note attached to a passing record:
`f"Investment Score: {score:.1f}/100"` — the score only ever holds integer
values, which `%.1f` renders as the digits followed by `".0"`. -/
def scoreNote (n : ℕ) : Str :=
  ("Investment Score: ".toList) ++ natToStr n ++ (".0/100".toList)

/-- The mutation `filter_properties` applies to a passing record:
`property.meets_criteria = True` and the score note. -/
def applyScore (p : EnrichedProperty) : EnrichedProperty :=
  { p with
    meets_criteria := true
  , notes := some (scoreNote (calculate_investment_score p)) }

/-- The sort key of `filter_properties`:
`float(p.notes.split(': ')[1].split('/')[0]) if p.notes else 0`. -/
def sortKeyOfNotes (o : Option Str) : ℚ :=
  match o with
  | none => 0
  | some s =>
    if s.isEmpty then 0
    else parseFloatStr ((pySplit ((pySplit s (": ".toList)).getD 1 []) ['/']).getD 0 [])

/-- `PropertyFilter.filter_properties`: keep the records passing all
criteria in input order, attach `meets_criteria` and the score note, then
`filtered.sort(key=..., reverse=True)` — a stable descending sort by the
re-parsed note, modelled by insertion sort with the reversed relation. -/
def filter_properties (crit : FilterCriteria)
    (properties : List EnrichedProperty) : List EnrichedProperty :=
  List.insertionSort (fun a b => sortKeyOfNotes b.notes ≤ sortKeyOfNotes a.notes)
    ((properties.filter (meets_all_criteria crit)).map applyScore)

end PropertyFilter

lemma score_le_100 (p : EnrichedProperty) :
    PropertyFilter.calculate_investment_score p ≤ 100 := by
  unfold PropertyFilter.calculate_investment_score
  exact Nat.min_le_right _ _

lemma score_applyScore (p : EnrichedProperty) :
    PropertyFilter.calculate_investment_score (PropertyFilter.applyScore p) =
      PropertyFilter.calculate_investment_score p := rfl

lemma notes_applyScore (p : EnrichedProperty) :
    (PropertyFilter.applyScore p).notes =
      some (PropertyFilter.scoreNote (PropertyFilter.calculate_investment_score p)) := rfl

lemma parse_scoreNote :
    ∀ n : ℕ, n ≤ 100 →
      PropertyFilter.sortKeyOfNotes (some (PropertyFilter.scoreNote n)) = natToRat n := by
  decide

lemma sortKey_applyScore (p : EnrichedProperty) :
    PropertyFilter.sortKeyOfNotes (PropertyFilter.applyScore p).notes =
      natToRat (PropertyFilter.calculate_investment_score p) := by
  rw [notes_applyScore]
  exact parse_scoreNote _ (score_le_100 p)

lemma natToRat_le_iff {m n : ℕ} : natToRat m ≤ natToRat n ↔ m ≤ n := by
  simp [natToRat, Rat.mkRat_one]

lemma orderedInsert_congr {α : Type} (r1 r2 : α → α → Prop)
    [DecidableRel r1] [DecidableRel r2] (a : α) (l : List α)
    (h : ∀ b ∈ l, r1 a b ↔ r2 a b) :
    l.orderedInsert r1 a = l.orderedInsert r2 a := by
  induction l with
  | nil => rfl
  | cons b bs ih =>
    simp only [List.orderedInsert]
    by_cases hr : r1 a b
    · rw [if_pos hr, if_pos ((h b (List.mem_cons_self b bs)).mp hr)]
    · rw [if_neg hr,
        if_neg (fun h2 => hr ((h b (List.mem_cons_self b bs)).mpr h2)),
        ih (fun x hx => h x (List.mem_cons_of_mem b hx))]

lemma insertionSort_congr {α : Type} (r1 r2 : α → α → Prop)
    [DecidableRel r1] [DecidableRel r2] (l : List α)
    (h : ∀ a ∈ l, ∀ b ∈ l, r1 a b ↔ r2 a b) :
    List.insertionSort r1 l = List.insertionSort r2 l := by
  induction l with
  | nil => rfl
  | cons a as ih =>
    simp only [List.insertionSort]
    rw [ih (fun x hx y hy =>
      h x (List.mem_cons_of_mem a hx) y (List.mem_cons_of_mem a hy))]
    refine orderedInsert_congr r1 r2 a _ (fun b hb => ?_)
    have hbmem : b ∈ as := ((List.perm_insertionSort r2 as).mem_iff).mp hb
    exact h a (List.mem_cons_self a as) b (List.mem_cons_of_mem a hbmem)

lemma meets_price_iff (crit : FilterCriteria) (r : EnrichedProperty) :
    PropertyFilter.meets_price_criteria crit r = true ↔
      ∃ price, r.zillow_data.price = some price ∧
        crit.min_price ≤ price ∧ price ≤ crit.max_price := by
  unfold PropertyFilter.meets_price_criteria
  cases h : r.zillow_data.price <;> simp [h]

lemma meets_bedroom_iff (crit : FilterCriteria) (r : EnrichedProperty) :
    PropertyFilter.meets_bedroom_criteria crit r = true ↔
      ∃ bd, r.zillow_data.bedrooms = some bd ∧ crit.min_bedrooms ≤ bd := by
  unfold PropertyFilter.meets_bedroom_criteria
  cases h : r.zillow_data.bedrooms <;> simp [h]

lemma meets_bathroom_iff (crit : FilterCriteria) (r : EnrichedProperty) :
    PropertyFilter.meets_bathroom_criteria crit r = true ↔
      ∃ ba, r.zillow_data.bathrooms = some ba ∧ crit.min_bathrooms ≤ ba := by
  unfold PropertyFilter.meets_bathroom_criteria
  cases h : r.zillow_data.bathrooms <;> simp [h]

lemma meets_unit_iff (crit : FilterCriteria) (r : EnrichedProperty) :
    PropertyFilter.meets_unit_criteria crit r = true ↔
      r.hpd_match_found = true ∧ crit.min_units ≤ r.total_units := by
  unfold PropertyFilter.meets_unit_criteria
  cases h : r.hpd_match_found <;> simp [h]

lemma has_required_b_units_iff (crit : FilterCriteria) (r : EnrichedProperty) :
    PropertyFilter.has_required_b_units crit r = true ↔
      (crit.require_b_units = true → r.has_b_units = true) := by
  unfold PropertyFilter.has_required_b_units
  cases h : crit.require_b_units <;> simp [h]

lemma meets_borough_iff (crit : FilterCriteria) (r : EnrichedProperty) :
    PropertyFilter.meets_borough_criteria crit r = true ↔
      (∀ bs, crit.boroughs = some bs → bs ≠ [] →
        ∃ bor, r.zillow_data.address.borough = some bor ∧ bor ≠ [] ∧ bor ∈ bs) := by
  unfold PropertyFilter.meets_borough_criteria
  cases hbs : crit.boroughs with
  | none => simp
  | some bs =>
    by_cases hbe : bs.isEmpty
    · simp [hbe, List.isEmpty_iff.mp hbe]
    · have hbne : bs ≠ [] := by
        intro h
        rw [h] at hbe
        exact hbe rfl
      cases hbor : r.zillow_data.address.borough with
      | none => simp [hbe, hbor, pyTruthy, hbne]
      | some bor =>
        by_cases hbemp : bor.isEmpty
        · simp [hbe, hbor, pyTruthy, hbemp, List.isEmpty_iff.mp hbemp, hbne]
        · have hborne : bor ≠ [] := by
            intro h
            rw [h] at hbemp
            exact hbemp rfl
          simp [hbe, hbor, pyTruthy, hbemp, hbne, hborne]

lemma meets_ptype_iff (crit : FilterCriteria) (r : EnrichedProperty) :
    PropertyFilter.meets_property_type_criteria crit r = true ↔
      (∀ ts, crit.property_types = some ts → ts ≠ [] →
        ∃ ptype, r.zillow_data.property_type = some ptype ∧ ptype ≠ [] ∧
          ∃ t, t ∈ ts ∧ pyContains (pyLower ptype) (pyLower t) = true) := by
  unfold PropertyFilter.meets_property_type_criteria
  cases hts : crit.property_types with
  | none => simp
  | some ts =>
    by_cases hte : ts.isEmpty
    · simp [hte, List.isEmpty_iff.mp hte]
    · have htne : ts ≠ [] := by
        intro h
        rw [h] at hte
        exact hte rfl
      cases hpt : r.zillow_data.property_type with
      | none => simp [hte, hpt, pyTruthy, htne]
      | some ptype =>
        by_cases hpemp : ptype.isEmpty
        · simp [hte, hpt, pyTruthy, hpemp, List.isEmpty_iff.mp hpemp, htne]
        · have hpne : ptype ≠ [] := by
            intro h
            rw [h] at hpemp
            exact hpemp rfl
          simp [hte, hpt, pyTruthy, hpemp, htne, hpne, List.any_eq_true]

/-- Claim C6: a merged record appears in the filter output exactly when it
passes all gates, and the gate is precisely: price present and within
bounds, bedrooms and bathrooms present and at least the minimums,
match-found with enough units, special units when required, borough a
case-sensitive member of a configured nonempty allow-list, and property type
case-insensitively containing an allowed substring when a nonempty type
allow-list is configured. -/
theorem c6_gate_characterization (crit : FilterCriteria)
    (rs : List EnrichedProperty) :
    (∀ x, x ∈ PropertyFilter.filter_properties crit rs ↔
      ∃ r, r ∈ rs ∧ PropertyFilter.meets_all_criteria crit r = true ∧
        x = PropertyFilter.applyScore r) ∧
    (∀ r, PropertyFilter.meets_all_criteria crit r = true ↔
      ((∃ price, r.zillow_data.price = some price ∧
          crit.min_price ≤ price ∧ price ≤ crit.max_price) ∧
       (∃ bd, r.zillow_data.bedrooms = some bd ∧ crit.min_bedrooms ≤ bd) ∧
       (∃ ba, r.zillow_data.bathrooms = some ba ∧ crit.min_bathrooms ≤ ba) ∧
       (r.hpd_match_found = true ∧ crit.min_units ≤ r.total_units) ∧
       (crit.require_b_units = true → r.has_b_units = true) ∧
       (∀ bs, crit.boroughs = some bs → bs ≠ [] →
         ∃ bor, r.zillow_data.address.borough = some bor ∧ bor ≠ [] ∧ bor ∈ bs) ∧
       (∀ ts, crit.property_types = some ts → ts ≠ [] →
         ∃ ptype, r.zillow_data.property_type = some ptype ∧ ptype ≠ [] ∧
           ∃ t, t ∈ ts ∧ pyContains (pyLower ptype) (pyLower t) = true))) := by
  constructor
  · intro x
    unfold PropertyFilter.filter_properties
    rw [(List.perm_insertionSort _ _).mem_iff]
    simp only [List.mem_map, List.mem_filter]
    constructor
    · rintro ⟨r, ⟨hr, hm⟩, rfl⟩
      exact ⟨r, hr, hm, rfl⟩
    · rintro ⟨r, hr, hm, rfl⟩
      exact ⟨r, ⟨hr, hm⟩, rfl⟩
  · intro r
    unfold PropertyFilter.meets_all_criteria
    simp only [Bool.and_eq_true, meets_price_iff, meets_bedroom_iff,
      meets_bathroom_iff, meets_unit_iff, has_required_b_units_iff,
      meets_borough_iff, meets_ptype_iff, and_assoc]

/-- Claim C7: the filter output is the stable descending sort by computed
investment score of the passing records (ties keep input order — insertion
sort with the reversed weak order is stable), it is a permutation of the
scored passing subsequence, it is sorted by descending score, and every
output record carries the score note, whose re-parsed sort key equals the
computed score. -/
theorem c7_output_sorted_by_score (crit : FilterCriteria)
    (rs : List EnrichedProperty) :
    PropertyFilter.filter_properties crit rs =
      List.insertionSort
        (fun a b => natToRat (PropertyFilter.calculate_investment_score b) ≤
          natToRat (PropertyFilter.calculate_investment_score a))
        ((rs.filter (PropertyFilter.meets_all_criteria crit)).map
          PropertyFilter.applyScore) ∧
    (PropertyFilter.filter_properties crit rs).Perm
      ((rs.filter (PropertyFilter.meets_all_criteria crit)).map
        PropertyFilter.applyScore) ∧
    List.Sorted
      (fun a b => PropertyFilter.calculate_investment_score b ≤
        PropertyFilter.calculate_investment_score a)
      (PropertyFilter.filter_properties crit rs) ∧
    (∀ x, x ∈ PropertyFilter.filter_properties crit rs →
      x.notes = some (PropertyFilter.scoreNote
        (PropertyFilter.calculate_investment_score x)) ∧
      PropertyFilter.sortKeyOfNotes x.notes =
        natToRat (PropertyFilter.calculate_investment_score x)) := by
  have hkey : ∀ x ∈ (rs.filter (PropertyFilter.meets_all_criteria crit)).map
      PropertyFilter.applyScore,
      PropertyFilter.sortKeyOfNotes x.notes =
        natToRat (PropertyFilter.calculate_investment_score x) := by
    intro x hx
    obtain ⟨r, _, rfl⟩ := List.mem_map.mp hx
    exact sortKey_applyScore r
  have heq : PropertyFilter.filter_properties crit rs =
      List.insertionSort
        (fun a b => natToRat (PropertyFilter.calculate_investment_score b) ≤
          natToRat (PropertyFilter.calculate_investment_score a))
        ((rs.filter (PropertyFilter.meets_all_criteria crit)).map
          PropertyFilter.applyScore) := by
    unfold PropertyFilter.filter_properties
    refine insertionSort_congr _ _ _ (fun a ha b hb => ?_)
    rw [hkey a ha, hkey b hb]
  have hperm : (PropertyFilter.filter_properties crit rs).Perm
      ((rs.filter (PropertyFilter.meets_all_criteria crit)).map
        PropertyFilter.applyScore) := by
    rw [heq]
    exact List.perm_insertionSort _ _
  refine ⟨heq, hperm, ?_, ?_⟩
  · rw [heq]
    haveI : IsTotal EnrichedProperty
        (fun a b => natToRat (PropertyFilter.calculate_investment_score b) ≤
          natToRat (PropertyFilter.calculate_investment_score a)) :=
      ⟨fun a b => (le_total _ _).symm⟩
    haveI : IsTrans EnrichedProperty
        (fun a b => natToRat (PropertyFilter.calculate_investment_score b) ≤
          natToRat (PropertyFilter.calculate_investment_score a)) :=
      ⟨fun _ _ _ h1 h2 => le_trans h2 h1⟩
    have hs := List.sorted_insertionSort
      (fun a b => natToRat (PropertyFilter.calculate_investment_score b) ≤
        natToRat (PropertyFilter.calculate_investment_score a))
      ((rs.filter (PropertyFilter.meets_all_criteria crit)).map
        PropertyFilter.applyScore)
    exact hs.imp (fun h => natToRat_le_iff.mp h)
  · intro x hx
    have hx2 : x ∈ (rs.filter (PropertyFilter.meets_all_criteria crit)).map
        PropertyFilter.applyScore := hperm.mem_iff.mp hx
    obtain ⟨r, _, rfl⟩ := List.mem_map.mp hx2
    exact ⟨notes_applyScore r, sortKey_applyScore r⟩

/-! ## Idempotence analysis of the similarity normalization (claim C8) -/

/-- No long-form token of the replacement table occurs in `s`. -/
def noLongForm (s : Str) : Bool :=
  replacementTable.all (fun pr => !(pyContains s pr.1))

lemma pyUpperChar_idem (c : Char) : pyUpperChar (pyUpperChar c) = pyUpperChar c := by
  unfold pyUpperChar
  by_cases h : 97 ≤ c.toNat ∧ c.toNat ≤ 122
  · rw [if_pos h]
    have hval : (Char.ofNat (c.toNat - 32)).toNat = c.toNat - 32 := by
      unfold Char.ofNat
      rw [dif_pos (Or.inl (by omega))]
      rfl
    rw [if_neg (by rw [hval]; omega)]
  · rw [if_neg h, if_neg h]

lemma pyUpper_fixed_chars {s : Str} : ∀ c ∈ pyUpper s, pyUpperChar c = c := by
  intro c hc
  obtain ⟨d, _, rfl⟩ := List.mem_map.mp hc
  exact pyUpperChar_idem d

lemma pyUpper_eq_self {s : Str} (h : ∀ c ∈ s, pyUpperChar c = c) :
    pyUpper s = s := by
  induction s with
  | nil => rfl
  | cons c t ih =>
    show pyUpperChar c :: pyUpper t = c :: t
    rw [h c (List.mem_cons_self c t), ih (fun d hd => h d (List.mem_cons_of_mem c hd))]

lemma mem_pyReplaceAux {pat rep : Str} {c : Char} :
    ∀ (s : Str) (skip : ℕ), c ∈ pyReplaceAux pat rep s skip → c ∈ s ∨ c ∈ rep := by
  intro s
  induction s with
  | nil =>
    intro skip h
    simp [pyReplaceAux] at h
  | cons x rest ih =>
    intro skip h
    cases skip with
    | succ n =>
      rcases ih n h with h2 | h2
      · exact Or.inl (List.mem_cons_of_mem x h2)
      · exact Or.inr h2
    | zero =>
      by_cases hc : (!pat.isEmpty && leadsWith pat (x :: rest)) = true
      · rw [pyReplaceAux, if_pos hc] at h
        rcases List.mem_append.mp h with h2 | h2
        · exact Or.inr h2
        · rcases ih _ h2 with h3 | h3
          · exact Or.inl (List.mem_cons_of_mem x h3)
          · exact Or.inr h3
      · rw [pyReplaceAux, if_neg hc] at h
        rcases List.mem_cons.mp h with rfl | h2
        · exact Or.inl (List.mem_cons_self _ _)
        · rcases ih 0 h2 with h3 | h3
          · exact Or.inl (List.mem_cons_of_mem x h3)
          · exact Or.inr h3

lemma mem_pyStrip {s : Str} {c : Char} (h : c ∈ pyStrip s) : c ∈ s := by
  unfold pyStrip at h
  rw [List.mem_reverse] at h
  have h2 := (List.dropWhile_sublist (l := (s.dropWhile isSpaceChar).reverse)
    (p := isSpaceChar)).subset h
  rw [List.mem_reverse] at h2
  exact (List.dropWhile_sublist (l := s) (p := isSpaceChar)).subset h2

lemma mem_pyWordsAux_chars :
    ∀ (s acc w : Str), w ∈ pyWordsAux s acc → ∀ c ∈ w, c ∈ s ∨ c ∈ acc := by
  intro s
  induction s with
  | nil =>
    intro acc w hw c hc
    by_cases hacc : acc.isEmpty
    · simp [pyWordsAux, hacc] at hw
    · simp only [pyWordsAux, hacc] at hw
      simp only [Bool.false_eq_true, if_false, List.mem_singleton] at hw
      subst hw
      exact Or.inr (List.mem_reverse.mp hc)
  | cons x rest ih =>
    intro acc w hw c hc
    by_cases hx : isSpaceChar x = true
    · by_cases hacc : acc.isEmpty
      · simp only [pyWordsAux, hx, hacc, if_true] at hw
        rcases ih [] w hw c hc with h2 | h2
        · exact Or.inl (List.mem_cons_of_mem x h2)
        · simp at h2
      · simp only [pyWordsAux, hx, hacc, if_true, Bool.false_eq_true, if_false,
          List.mem_cons] at hw
        rcases hw with rfl | hw2
        · exact Or.inr (List.mem_reverse.mp hc)
        · rcases ih [] w hw2 c hc with h2 | h2
          · exact Or.inl (List.mem_cons_of_mem x h2)
          · simp at h2
    · have hx2 : isSpaceChar x = false := by
        cases h : isSpaceChar x
        · rfl
        · exact absurd h hx
      simp only [pyWordsAux, hx2, Bool.false_eq_true, if_false] at hw
      rcases ih (x :: acc) w hw c hc with h2 | h2
      · exact Or.inl (List.mem_cons_of_mem x h2)
      · rcases List.mem_cons.mp h2 with rfl | h3
        · exact Or.inl (List.mem_cons_self _ _)
        · exact Or.inr h3

lemma mem_joinWords_chars :
    ∀ (ws : List Str) (c : Char), c ∈ joinWords ws → c = ' ' ∨ ∃ w ∈ ws, c ∈ w := by
  intro ws
  induction ws with
  | nil =>
    intro c hc
    simp [joinWords] at hc
  | cons w ws ih =>
    intro c hc
    cases ws with
    | nil =>
      exact Or.inr ⟨w, List.mem_cons_self w [], hc⟩
    | cons v t =>
      rw [show joinWords (w :: v :: t) = w ++ ' ' :: joinWords (v :: t) from rfl] at hc
      rcases List.mem_append.mp hc with h2 | h2
      · exact Or.inr ⟨w, List.mem_cons_self _ _, h2⟩
      · rcases List.mem_cons.mp h2 with rfl | h3
        · exact Or.inl rfl
        · rcases ih c h3 with h4 | ⟨u, hu, hcu⟩
          · exact Or.inl h4
          · exact Or.inr ⟨u, List.mem_cons_of_mem w hu, hcu⟩

lemma pyWordsAux_words_ok :
    ∀ (s acc : Str), (∀ c ∈ acc, isSpaceChar c = false) →
      ∀ w ∈ pyWordsAux s acc, w ≠ [] ∧ ∀ c ∈ w, isSpaceChar c = false := by
  intro s
  induction s with
  | nil =>
    intro acc hacc w hw
    by_cases he : acc.isEmpty
    · simp [pyWordsAux, he] at hw
    · simp only [pyWordsAux, he, Bool.false_eq_true, if_false,
        List.mem_singleton] at hw
      subst hw
      refine ⟨fun h => he ?_, fun c hc => hacc c (List.mem_reverse.mp hc)⟩
      have : acc = [] := by
        have := congrArg List.reverse h
        simpa using this
      simp [this]
  | cons x rest ih =>
    intro acc hacc w hw
    by_cases hx : isSpaceChar x = true
    · by_cases he : acc.isEmpty
      · simp only [pyWordsAux, hx, he, if_true] at hw
        exact ih [] (by simp) w hw
      · simp only [pyWordsAux, hx, he, if_true, Bool.false_eq_true, if_false,
          List.mem_cons] at hw
        rcases hw with rfl | hw2
        · refine ⟨fun h => he ?_, fun c hc => hacc c (List.mem_reverse.mp hc)⟩
          have : acc = [] := by
            have := congrArg List.reverse h
            simpa using this
          simp [this]
        · exact ih [] (by simp) w hw2
    · have hx2 : isSpaceChar x = false := by
        cases h : isSpaceChar x
        · rfl
        · exact absurd h hx
      simp only [pyWordsAux, hx2, Bool.false_eq_true, if_false] at hw
      refine ih (x :: acc) ?_ w hw
      intro c hc
      rcases List.mem_cons.mp hc with rfl | h3
      · exact hx2
      · exact hacc c h3

lemma pyWordsAux_append_word :
    ∀ (w : Str), (∀ c ∈ w, isSpaceChar c = false) →
      ∀ (s acc : Str), pyWordsAux (w ++ s) acc = pyWordsAux s (w.reverse ++ acc) := by
  intro w
  induction w with
  | nil => intro _ s acc; simp
  | cons c w2 ih =>
    intro h s acc
    have hc : isSpaceChar c = false := h c (List.mem_cons_self c w2)
    show pyWordsAux (c :: (w2 ++ s)) acc = pyWordsAux s ((c :: w2).reverse ++ acc)
    simp only [pyWordsAux, hc, Bool.false_eq_true, if_false]
    rw [ih (fun d hd => h d (List.mem_cons_of_mem c hd)) s (c :: acc)]
    simp [List.reverse_cons, List.append_assoc]

lemma pyWords_joinWords :
    ∀ (ws : List Str),
      (∀ w ∈ ws, w ≠ [] ∧ ∀ c ∈ w, isSpaceChar c = false) →
      pyWords (joinWords ws) = ws := by
  intro ws
  induction ws with
  | nil => intro _; rfl
  | cons w ws ih =>
    intro h
    have hw := h w (List.mem_cons_self w ws)
    have hne : w.reverse.isEmpty = false := by
      cases hrev : w.reverse.isEmpty
      · rfl
      · exact absurd (by simpa using List.isEmpty_iff.mp hrev) hw.1
    cases ws with
    | nil =>
      show pyWordsAux (joinWords [w]) [] = [w]
      have hjw : joinWords [w] = w ++ [] := by simp [joinWords]
      rw [hjw, pyWordsAux_append_word w hw.2 [] []]
      simp only [List.append_nil, pyWordsAux, hne, Bool.false_eq_true, if_false,
        List.reverse_reverse]
    | cons v t =>
      show pyWordsAux (joinWords (w :: v :: t)) [] = w :: v :: t
      rw [show joinWords (w :: v :: t) = w ++ ' ' :: joinWords (v :: t) from rfl]
      rw [pyWordsAux_append_word w hw.2 _ []]
      have hsp : isSpaceChar ' ' = true := by decide
      simp only [List.append_nil, pyWordsAux, hsp, if_true, hne,
        Bool.false_eq_true, if_false, List.reverse_reverse]
      exact congrArg (w :: ·) (ih (fun u hu => h u (List.mem_cons_of_mem w hu)))

lemma joinWords_append_singleton :
    ∀ (xs : List Str) (y : Str), xs ≠ [] →
      joinWords (xs ++ [y]) = joinWords xs ++ ' ' :: y := by
  intro xs
  induction xs with
  | nil => intro y h; exact absurd rfl h
  | cons x xs ih =>
    intro y _
    cases xs with
    | nil => rfl
    | cons v t =>
      show joinWords (x :: ((v :: t) ++ [y])) = (x ++ ' ' :: joinWords (v :: t)) ++ ' ' :: y
      have h2 : joinWords (x :: ((v :: t) ++ [y])) =
          x ++ ' ' :: joinWords ((v :: t) ++ [y]) := rfl
      rw [h2, ih y (by simp)]
      simp [List.append_assoc]

lemma reverse_joinWords :
    ∀ ws : List Str, (joinWords ws).reverse = joinWords ((ws.map List.reverse).reverse) := by
  intro ws
  induction ws with
  | nil => rfl
  | cons w ws ih =>
    cases ws with
    | nil => simp [joinWords]
    | cons v t =>
      rw [show joinWords (w :: v :: t) = w ++ ' ' :: joinWords (v :: t) from rfl]
      rw [List.reverse_append, List.reverse_cons, List.append_assoc, ih]
      have hne : ((v :: t).map List.reverse).reverse ≠ [] := by simp
      simp only [List.singleton_append]
      rw [← joinWords_append_singleton _ w.reverse hne]
      simp [List.reverse_cons]

lemma dropWhile_eq_self_head {p : Char → Bool} :
    ∀ s : Str, (∀ c t, s = c :: t → p c = false) → s.dropWhile p = s := by
  intro s h
  cases s with
  | nil => rfl
  | cons c t =>
    rw [List.dropWhile_cons, h c t rfl]
    simp

lemma joinWords_head_not_space :
    ∀ ws : List Str,
      (∀ w ∈ ws, w ≠ [] ∧ ∀ c ∈ w, isSpaceChar c = false) →
      ∀ c t, joinWords ws = c :: t → isSpaceChar c = false := by
  intro ws
  induction ws with
  | nil => intro _ c t h; cases h
  | cons w ws _ =>
    intro h c t hct
    have hw := h w (List.mem_cons_self w ws)
    cases ws with
    | nil =>
      refine hw.2 c ?_
      rw [show joinWords [w] = w from rfl] at hct
      rw [hct]
      exact List.mem_cons_self c t
    | cons v u =>
      rw [show joinWords (w :: v :: u) = w ++ ' ' :: joinWords (v :: u) from rfl] at hct
      cases hwc : w with
      | nil => exact absurd hwc hw.1
      | cons c0 w0 =>
        rw [hwc, List.cons_append] at hct
        have : c0 = c := (List.cons.injEq _ _ _ _).mp hct |>.1
        refine hw.2 c ?_
        rw [hwc, ← this]
        exact List.mem_cons_self c0 w0

lemma words_ok_reversed {ws : List Str}
    (h : ∀ w ∈ ws, w ≠ [] ∧ ∀ c ∈ w, isSpaceChar c = false) :
    ∀ w ∈ (ws.map List.reverse).reverse, w ≠ [] ∧ ∀ c ∈ w, isSpaceChar c = false := by
  intro w hw
  rw [List.mem_reverse, List.mem_map] at hw
  obtain ⟨u, hu, rfl⟩ := hw
  refine ⟨fun he => (h u hu).1 (by simpa using congrArg List.reverse he), ?_⟩
  intro c hc
  exact (h u hu).2 c (List.mem_reverse.mp hc)

lemma pyStrip_joinWords (ws : List Str)
    (h : ∀ w ∈ ws, w ≠ [] ∧ ∀ c ∈ w, isSpaceChar c = false) :
    pyStrip (joinWords ws) = joinWords ws := by
  unfold pyStrip
  rw [dropWhile_eq_self_head _ (joinWords_head_not_space ws h)]
  rw [reverse_joinWords]
  rw [dropWhile_eq_self_head _
    (joinWords_head_not_space _ (words_ok_reversed h))]
  rw [← reverse_joinWords, List.reverse_reverse]

lemma pyReplaceAux_eq_self {pat rep : Str} :
    ∀ s : Str, pyContains s pat = false → pyReplaceAux pat rep s 0 = s := by
  intro s
  induction s with
  | nil => intro _; rfl
  | cons c rest ih =>
    intro h
    have h2 : (leadsWith pat (c :: rest) || pyContains rest pat) = false := h
    have hlead : leadsWith pat (c :: rest) = false := by
      cases hl : leadsWith pat (c :: rest)
      · rfl
      · rw [hl] at h2; cases h2
    have hrest : pyContains rest pat = false := by
      cases hr : pyContains rest pat
      · rfl
      · rw [hr] at h2; simp at h2
    rw [pyReplaceAux, if_neg (by simp [hlead]), ih hrest]

lemma foldl_replace_eq_self :
    ∀ (tbl : List (Str × Str)) (s : Str),
      (∀ pr ∈ tbl, pyContains s pr.1 = false) →
      tbl.foldl (fun s p => pyReplace s p.1 p.2) s = s := by
  intro tbl
  induction tbl with
  | nil => intro s _; rfl
  | cons p ps ih =>
    intro s h
    have h1 : pyReplace s p.1 p.2 = s :=
      pyReplaceAux_eq_self s (h p (List.mem_cons_self p ps))
    show List.foldl _ (pyReplace s p.1 p.2) ps = s
    rw [h1]
    exact ih s (fun pr hpr => h pr (List.mem_cons_of_mem p hpr))

lemma replacementTable_reps_fixed :
    ∀ pr ∈ replacementTable, ∀ c ∈ pr.2, pyUpperChar c = c := by
  decide

lemma foldl_replace_chars :
    ∀ (tbl : List (Str × Str)) (s : Str),
      (∀ pr ∈ tbl, ∀ c ∈ pr.2, pyUpperChar c = c) →
      (∀ c ∈ s, pyUpperChar c = c) →
      ∀ c ∈ tbl.foldl (fun s p => pyReplace s p.1 p.2) s, pyUpperChar c = c := by
  intro tbl
  induction tbl with
  | nil => intro s _ hs c hc; exact hs c hc
  | cons p ps ih =>
    intro s htbl hs c hc
    refine ih (pyReplace s p.1 p.2)
      (fun pr hpr => htbl pr (List.mem_cons_of_mem p hpr)) ?_ c hc
    intro d hd
    rcases mem_pyReplaceAux s 0 hd with h2 | h2
    · exact hs d h2
    · exact htbl p (List.mem_cons_self p ps) d h2

lemma normalize_chars_fixed (a : Address) :
    ∀ c ∈ PropertyMatcher.normalize_address a, pyUpperChar c = c := by
  intro c hc
  have hx : ∀ d ∈ replacementTable.foldl (fun s p => pyReplace s p.1 p.2)
      (pyStrip (pyUpper a.street)), pyUpperChar d = d := by
    refine foldl_replace_chars _ _ replacementTable_reps_fixed ?_
    intro d hd
    exact pyUpper_fixed_chars d (mem_pyStrip hd)
  rcases mem_joinWords_chars _ c hc with rfl | ⟨w, hw, hcw⟩
  · decide
  · rcases mem_pyWordsAux_chars _ [] w hw c hcw with h2 | h2
    · exact hx c h2
    · simp at h2

/-- Address used by the claim C8 counterexample. -/
def addrC8 : Address := { street := "STREEASTT".toList }

/-- Claim C8 as stated is false: normalizing the street `STREEASTT` yields
`STREET` (the EAST→E replacement manufactures the long form), and
normalizing an address whose street is that result yields `ST`, not
`STREET`. -/
theorem c8_counterexample :
    PropertyMatcher.normalize_address addrC8 = "STREET".toList ∧
    PropertyMatcher.normalize_address
      { street := PropertyMatcher.normalize_address addrC8 } = "ST".toList ∧
    PropertyMatcher.normalize_address
      { street := PropertyMatcher.normalize_address addrC8 } ≠
      PropertyMatcher.normalize_address addrC8 := by
  refine ⟨by decide, by decide, by decide⟩

/-- Claim C8 amended: the street normalization is idempotent on every
address whose normalized street contains no long-form token of the
replacement table (the counterexample shows a replacement can manufacture
such a token, so the restriction is necessary): re-normalizing any address
whose street is that normalized form returns it unchanged. -/
theorem c8_normalize_idem (a b : Address)
    (hb : b.street = PropertyMatcher.normalize_address a)
    (h : noLongForm (PropertyMatcher.normalize_address a) = true) :
    PropertyMatcher.normalize_address b = PropertyMatcher.normalize_address a := by
  have hwords : ∀ w ∈ pyWords (replacementTable.foldl (fun s p => pyReplace s p.1 p.2)
      (pyStrip (pyUpper a.street))), w ≠ [] ∧ ∀ c ∈ w, isSpaceChar c = false :=
    pyWordsAux_words_ok _ [] (by simp)
  have ht : PropertyMatcher.normalize_address a =
      joinWords (pyWords (replacementTable.foldl (fun s p => pyReplace s p.1 p.2)
        (pyStrip (pyUpper a.street)))) := rfl
  have hnopat : ∀ pr ∈ replacementTable,
      pyContains (PropertyMatcher.normalize_address a) pr.1 = false := by
    intro pr hpr
    have := (List.all_eq_true.mp h) pr hpr
    cases hc : pyContains (PropertyMatcher.normalize_address a) pr.1
    · rfl
    · rw [hc] at this; cases this
  show collapseWs (replacementTable.foldl (fun s p => pyReplace s p.1 p.2)
    (pyStrip (pyUpper b.street))) = PropertyMatcher.normalize_address a
  rw [hb]
  rw [pyUpper_eq_self (normalize_chars_fixed a)]
  rw [show pyStrip (PropertyMatcher.normalize_address a) =
      PropertyMatcher.normalize_address a by
    rw [ht]; exact pyStrip_joinWords _ hwords]
  rw [foldl_replace_eq_self _ _ hnopat]
  show joinWords (pyWords (PropertyMatcher.normalize_address a)) =
    PropertyMatcher.normalize_address a
  rw [ht, pyWords_joinWords _ hwords]

/-! ## Concrete witnesses -/

/-- A concrete ratio function satisfying the spec contract. -/
def ratioSample : Str → Str → ℕ := fun a b => if a = b then 100 else 0

lemma ratioSample_spec : RatioSpec ratioSample := by
  refine ⟨fun s => by simp [ratioSample], fun a b => ?_, fun a b => ?_⟩
  · by_cases h : a = b <;> simp [ratioSample, h]
  · unfold ratioSample
    by_cases h : a = b
    · subst h; rfl
    · rw [if_neg h, if_neg (fun h2 => h h2.symm)]

/-- Listing used by cache-hit witnesses. -/
def zpW1 : ZillowProperty :=
  { address :=
    { street := "100 Gold St".toList, city := "New York".toList
    , state := "NY".toList, borough := some ("Brooklyn".toList) } }

/-- Cache row used by cache-hit witnesses. -/
def rowW1 : CacheRow :=
  { street := "100 Gold St".toList, borough := "Brooklyn".toList, bUnitCount := 2 }

/-- A one-row cache containing the listing's key. -/
def cacheW1 : List (Str × CacheRow) :=
  [(HPDCache.normalize_address zpW1.address, rowW1)]

/-- The building the cache hit reconstructs. -/
def bldW1 : HPDBuilding := HPDCache.reconstructBuilding zpW1.address rowW1

/-- A scraper collaborator that finds nothing. -/
def scraperNone : Address → Except Unit (Option HPDBuilding) :=
  fun _ => Except.ok none

/-- A scraper collaborator that raises. -/
def scraperErr : Address → Except Unit (Option HPDBuilding) :=
  fun _ => Except.error ()

theorem c1_witness :
    (RatioSpec ratioSample ∧
      HPDCache.get_cached_hpd_data cacheW1 zpW1.address = some bldW1) ∧
    ((PropertyMatcher.match_property ratioSample cacheW1 scraperNone zpW1).scraperCalls = 0 ∧
     (PropertyMatcher.match_property ratioSample cacheW1 scraperNone zpW1).enriched.hpd_data = some bldW1 ∧
     (PropertyMatcher.match_property ratioSample cacheW1 scraperNone zpW1).enriched.hpd_match_found = true) :=
  ⟨⟨ratioSample_spec, by decide⟩,
    c1_cache_hit_trusted ratioSample cacheW1 scraperNone zpW1 bldW1
      ratioSample_spec (by decide)⟩

theorem c10_witness :
    (RatioSpec ratioSample ∧
      HPDCache.get_cached_hpd_data cacheW1 zpW1.address = some bldW1) ∧
    (PropertyMatcher.calculate_address_similarity ratioSample zpW1.address bldW1.address = 100 ∧
     (PropertyMatcher.match_property ratioSample cacheW1 scraperNone zpW1).enriched.match_confidence =
       some ("High".toList)) :=
  ⟨⟨ratioSample_spec, by decide⟩,
    c10_cache_hit_high_confidence ratioSample cacheW1 scraperNone zpW1 bldW1
      ratioSample_spec (by decide)⟩

/-- Building found by the witness scraper. -/
def bldW4 : HPDBuilding :=
  { address := { street := "200 Elm St".toList }
  , total_units := 3
  , b_units := [{ unit_number := some ("B1".toList), is_b_unit := true }]
  , has_b_units := true }

/-- Listing used by the scrape-path witnesses. -/
def zpW4 : ZillowProperty := { address := { street := "200 Elm St".toList } }

/-- A scraper collaborator returning `bldW4`. -/
def scraperW4 : Address → Except Unit (Option HPDBuilding) :=
  fun _ => Except.ok (some bldW4)

theorem c4_witness :
    (HPDCache.get_cached_hpd_data [] zpW4.address = none ∧
      scraperW4 zpW4.address = Except.ok (some bldW4)) ∧
    ((PropertyMatcher.calculate_address_similarity ratioSample zpW4.address bldW4.address < 80 →
      (PropertyMatcher.match_property ratioSample [] scraperW4 zpW4).enriched.hpd_match_found = false ∧
      (PropertyMatcher.match_property ratioSample [] scraperW4 zpW4).enriched.hpd_data = none ∧
      (PropertyMatcher.match_property ratioSample [] scraperW4 zpW4).enriched.match_confidence = none) ∧
    (80 ≤ PropertyMatcher.calculate_address_similarity ratioSample zpW4.address bldW4.address →
      (PropertyMatcher.match_property ratioSample [] scraperW4 zpW4).enriched.hpd_match_found = true ∧
      (PropertyMatcher.match_property ratioSample [] scraperW4 zpW4).enriched.hpd_data = some bldW4 ∧
      (PropertyMatcher.match_property ratioSample [] scraperW4 zpW4).enriched.match_confidence =
        some
          (if 95 ≤ PropertyMatcher.calculate_address_similarity ratioSample zpW4.address bldW4.address
           then "High".toList
           else if 85 ≤ PropertyMatcher.calculate_address_similarity ratioSample zpW4.address bldW4.address
           then "Medium".toList
           else "Low".toList))) :=
  ⟨⟨rfl, rfl⟩,
    c4_scrape_threshold_and_tiers ratioSample [] scraperW4 zpW4 bldW4 rfl rfl⟩

theorem c9_witness :
    (HPDCache.get_cached_hpd_data [] zpW4.address = none ∧
      scraperErr zpW4.address = Except.error ()) ∧
    (((PropertyMatcher.match_property ratioSample [] scraperErr zpW4).enriched.hpd_match_found = false ∧
      (PropertyMatcher.match_property ratioSample [] scraperErr zpW4).enriched.hpd_data = none ∧
      (PropertyMatcher.match_property ratioSample [] scraperErr zpW4).enriched.match_confidence = none ∧
      (PropertyMatcher.match_property ratioSample [] scraperErr zpW4).newData = []) ∧
    (∀ listings : List ZillowProperty,
      (PropertyMatcher.match_properties_batch ratioSample [] scraperErr listings).length =
        listings.length)) :=
  ⟨⟨rfl, rfl⟩,
    c9_scraper_error_contained ratioSample [] scraperErr zpW4 () rfl rfl⟩

/-- A matched enriched property used by the cache-insertion witness. -/
def propW2 : EnrichedProperty :=
  { zillow_data := zpW4
  , hpd_data := some bldW4
  , hpd_match_found := true
  , has_b_units := true
  , b_unit_count := 1
  , total_units := 3 }

theorem c2_witness :
    (([] : List (Str × CacheRow)).map Prod.fst).Nodup ∧
    ((∀ k, (cacheLookup ([] : List (Str × CacheRow)) k).isSome = true →
      cacheLookup (HPDCache.save_to_cache ("d1".toList) [] [propW2]) k =
        cacheLookup ([] : List (Str × CacheRow)) k) ∧
    (∀ k, (cacheLookup (HPDCache.save_to_cache ("d1".toList) [] [propW2]) k).isSome = true →
      (cacheLookup ([] : List (Str × CacheRow)) k).isSome = true ∨
        ∃ p, p ∈ [propW2] ∧ p.hpd_match_found = true ∧ p.hpd_data.isSome = true ∧
          k = propKey p) ∧
    ((HPDCache.save_to_cache ("d1".toList) [] [propW2]).map Prod.fst).Nodup ∧
    HPDCache.save_to_cache ("d2".toList)
        (HPDCache.save_to_cache ("d1".toList) [] [propW2]) [propW2] =
      HPDCache.save_to_cache ("d1".toList) [] [propW2] ∧
    (∀ p, p ∈ [propW2] → p.hpd_match_found = true → p.hpd_data.isSome = true →
      ((HPDCache.save_to_cache ("d1".toList) [] [propW2]).map Prod.fst).countP
        (fun k => decide (k = propKey p)) = 1)) :=
  ⟨List.nodup_nil,
    c2_cache_insert_invariants ("d1".toList) ("d2".toList) [] [propW2]
      List.nodup_nil⟩

/-- Address used by the claim C8 witness. -/
def addrW8 : Address := { street := "100 gold street".toList }

theorem c8_witness :
    (({ street := PropertyMatcher.normalize_address addrW8 : Address }.street =
        PropertyMatcher.normalize_address addrW8) ∧
      noLongForm (PropertyMatcher.normalize_address addrW8) = true) ∧
    PropertyMatcher.normalize_address
        { street := PropertyMatcher.normalize_address addrW8 } =
      PropertyMatcher.normalize_address addrW8 :=
  ⟨⟨rfl, by decide⟩,
    c8_normalize_idem addrW8 { street := PropertyMatcher.normalize_address addrW8 }
      rfl (by decide)⟩

end RealEstate
